import Mathlib

/-!
Verification of the configsync configuration store.

The development shallowly embeds the repository's data model and the
operations of `app/db/crud.py` (class `ConfigRepository`) together with the
route-level scope resolution of `app/api/routes_config.py`.  The database is
a record of the two mutable tables (`service_configs`, `config_versions`)
plus the autoincrement counters; SQLAlchemy queries become list filters in
insertion order, `order_by(version.desc())` becomes an insertion sort, and
`HTTPException` / `ValueError` become an error type threaded through
`Except`.  Each `self.db.commit()` boundary of the source is kept visible by
splitting `update_or_create_config` into the state visible after its first
commit (`upsertConfigState`) and the subsequent `add_new_version` commit.
-/

set_option maxHeartbeats 1000000

/-- JSON-like opaque structured documents, the payload type of configurations. -/
inductive JVal : Type where
  | null : JVal
  | bool (b : Bool) : JVal
  | num (n : Int) : JVal
  | str (s : String) : JVal
  | arr (elems : List JVal) : JVal
  | obj (fields : List (String × JVal)) : JVal

mutual

/-- Modelled from the spec: the Diff Engine's order-insensitive structural
equality of two documents (the engine itself is the third-party DeepDiff
library with ignore_order=True, whose sources are not part of the
repository).  Unordered containers are compared ignoring element order:
sequences match when their elements can be matched one-to-one, and maps
match when their field sets can be matched one-to-one by key and value. -/
def jequiv : JVal → JVal → Bool
  | .null, .null => true
  | .bool a, .bool b => a == b
  | .num a, .num b => a == b
  | .str a, .str b => a == b
  | .arr xs, .arr ys => matchElems xs ys
  | .obj fs, .obj gs => matchFields fs gs
  | _, _ => false
termination_by a _ => (sizeOf a, 0)

/-- Multiset-style matching of two element sequences. -/
def matchElems : List JVal → List JVal → Bool
  | [], ys => ys.isEmpty
  | x :: xs, ys =>
    match removeElem x ys with
    | some ys' => matchElems xs ys'
    | none => false
termination_by xs ys => (sizeOf xs, ys.length)

/-- Remove the first element equivalent to the given document. -/
def removeElem : JVal → List JVal → Option (List JVal)
  | _, [] => none
  | x, y :: ys =>
    if jequiv x y then some ys else (removeElem x ys).map (y :: ·)
termination_by x ys => (sizeOf x, ys.length)

/-- Multiset-style matching of two field sequences. -/
def matchFields : List (String × JVal) → List (String × JVal) → Bool
  | [], gs => gs.isEmpty
  | f :: fs, gs =>
    match removeField f gs with
    | some gs' => matchFields fs gs'
    | none => false
termination_by fs gs => (sizeOf fs, gs.length)

/-- Remove the first field with the same key and an equivalent value. -/
def removeField : (String × JVal) → List (String × JVal) → Option (List (String × JVal))
  | _, [] => none
  | (k, v), g :: gs =>
    if k == g.1 && jequiv v g.2 then some gs else (removeField (k, v) gs).map (g :: ·)
termination_by f gs => (sizeOf f, gs.length)

end

/-- One reported difference of the Diff Engine's report. -/
inductive DiffEntry : Type where
  | keyAdded (key : String) (value : JVal)
  | keyRemoved (key : String) (value : JVal)
  | valueChanged (key : String) (before after : JVal)
  | rootChanged (before after : JVal)

/-- Modelled from the spec: the Diff Engine's additions/removals/changes
report (DeepDiff with ignore_order=True, not part of the repository
sources).  The report is empty exactly when the two documents are equal up
to the ordering of elements of unordered containers; otherwise top-level
map fields are classified as added, removed or changed, and any other
difference is reported at the root. -/
def deepDiff (a b : JVal) : List DiffEntry :=
  if jequiv a b then []
  else
    match a, b with
    | .obj fs, .obj gs =>
        (fs.filterMap fun f =>
          if (gs.find? fun g => g.1 == f.1).isNone then some (.keyRemoved f.1 f.2) else none) ++
        (gs.filterMap fun g =>
          if (fs.find? fun f => f.1 == g.1).isNone then some (.keyAdded g.1 g.2) else none) ++
        (fs.filterMap fun f =>
          match gs.find? fun g => g.1 == f.1 with
          | some g => if jequiv f.2 g.2 then none else some (.valueChanged f.1 f.2 g.2)
          | none => none)
    | a, b => [.rootChanged a b]

mutual

/-- The spec's relation on documents: equal up to the ordering of elements
of unordered collections.  Scalars must be exactly equal; sequences must
hold equal multisets of related elements; maps must hold equal multisets of
fields with equal keys and related values. -/
inductive EquivUnord : JVal → JVal → Prop where
  | null : EquivUnord .null .null
  | bool (b : Bool) : EquivUnord (.bool b) (.bool b)
  | num (n : Int) : EquivUnord (.num n) (.num n)
  | str (s : String) : EquivUnord (.str s) (.str s)
  | arr {xs zs ys : List JVal} :
      PointwiseEquiv xs zs → zs.Perm ys → EquivUnord (.arr xs) (.arr ys)
  | obj {fs hs gs : List (String × JVal)} :
      PointwiseFieldEquiv fs hs → hs.Perm gs → EquivUnord (.obj fs) (.obj gs)

/-- Sequences of documents related position by position. -/
inductive PointwiseEquiv : List JVal → List JVal → Prop where
  | nil : PointwiseEquiv [] []
  | cons {x y : JVal} {xs ys : List JVal} :
      EquivUnord x y → PointwiseEquiv xs ys → PointwiseEquiv (x :: xs) (y :: ys)

/-- Field sequences related position by position with equal keys. -/
inductive PointwiseFieldEquiv : List (String × JVal) → List (String × JVal) → Prop where
  | nil : PointwiseFieldEquiv [] []
  | cons {k : String} {v w : JVal} {fs gs : List (String × JVal)} :
      EquivUnord v w → PointwiseFieldEquiv fs gs → PointwiseFieldEquiv ((k, v) :: fs) ((k, w) :: gs)

end

/-- Identity resolved for a request, from app/db/models.py `User`; only the
fields the repository reads are kept. -/
structure UserRec where
  id : Nat
  role : String

/-- Current-state row, from app/db/models.py `ServiceConfig`. -/
structure ServiceConfigRow where
  id : Nat
  name : String
  config : JVal
  user_id : Nat

/-- History row, from app/db/models.py `ConfigVersion`. -/
structure ConfigVersionRow where
  id : Nat
  service_name : String
  version : Nat
  config : JVal
  user_id : Nat

/-- Database state: the two mutable tables in insertion order plus the
autoincrement primary-key counters. -/
structure DB where
  configs : List ServiceConfigRow
  versions : List ConfigVersionRow
  nextConfigId : Nat
  nextVersionId : Nat

/-- The empty database; SQL autoincrement ids start at 1. -/
def DB.empty : DB := ⟨[], [], 1, 1⟩

/-- Errors raised by the repository layer: `fastapi.HTTPException` carries a
status code and detail string; a Python `ValueError` carries a message. -/
inductive Err : Type where
  | http (status : Nat) (detail : String)
  | valueError (msg : String)
  deriving DecidableEq

/-- `ConfigRepository._is_admin`: getattr(current_user, 'role', None) == 'admin'. -/
def isAdminUser (current_user : Option UserRec) : Bool :=
  match current_user with
  | some u => u.role == "admin"
  | none => false

/-- `ConfigRepository.get_config`.  An admin may omit user_id to search across
all owners; a non-admin caller without user_id raises ValueError.  `.first()`
on an unordered query is the head of the rows in insertion order. -/
def get_config (db : DB) (service_name : String) (user_id : Option Nat)
    (current_user : Option UserRec) : Except Err (Option ServiceConfigRow) :=
  if isAdminUser current_user then
    match user_id with
    | some uid =>
        .ok ((db.configs.filter fun r => r.name == service_name && r.user_id == uid).head?)
    | none => .ok ((db.configs.filter fun r => r.name == service_name).head?)
  else
    match user_id with
    | none => .error (.valueError "user_id is required for non-admin operations")
    | some uid =>
        .ok ((db.configs.filter fun r => r.name == service_name && r.user_id == uid).head?)

/-- The SQL ordering `order_by(ConfigVersion.version.desc())`. -/
def versionGE (a b : ConfigVersionRow) : Prop := b.version ≤ a.version

instance : DecidableRel versionGE := fun a b => Nat.decLe b.version a.version

instance : IsTotal ConfigVersionRow versionGE := ⟨fun a b => Nat.le_total b.version a.version⟩

instance : IsTrans ConfigVersionRow versionGE := ⟨fun _ _ _ h1 h2 => Nat.le_trans h2 h1⟩

/-- Rows sorted by version number, newest first. -/
def sortVersionsDesc (l : List ConfigVersionRow) : List ConfigVersionRow :=
  List.insertionSort versionGE l

/-- `ConfigRepository.get_latest_version`.  The non-admin branch filters by
user_id without a None check; comparing against a missing user_id matches no
row, like a SQL NULL comparison. -/
def get_latest_version (db : DB) (service_name : String) (user_id : Option Nat)
    (current_user : Option UserRec) : Option ConfigVersionRow :=
  let rows :=
    if isAdminUser current_user then
      match user_id with
      | some uid =>
          db.versions.filter fun r => r.service_name == service_name && r.user_id == uid
      | none => db.versions.filter fun r => r.service_name == service_name
    else
      db.versions.filter fun r => r.service_name == service_name && user_id == some r.user_id
  (sortVersionsDesc rows).head?

/-- `ConfigRepository.add_new_version`: compute 1 + the latest version for the
(service_name, user_id) pair (1 when none exists), insert the row, commit. -/
def add_new_version (db : DB) (service_name : String) (config : JVal) (user_id : Nat) :
    ConfigVersionRow × DB :=
  let latest := get_latest_version db service_name (some user_id) none
  let new_version_number :=
    match latest with
    | some v => v.version + 1
    | none => 1
  let new_version : ConfigVersionRow :=
    { id := db.nextVersionId, service_name := service_name, version := new_version_number,
      config := config, user_id := user_id }
  (new_version,
    { db with versions := db.versions ++ [new_version], nextVersionId := db.nextVersionId + 1 })

/-- Input schema of an upsert, from app/schemas/config_schema.py. -/
structure ConfigUpdateSchema where
  name : String
  config : JVal

/-- The prefix of `ConfigRepository.update_or_create_config` up to and
including its first `self.db.commit()`: resolve the input, look up the row
under the caller's scope, then either overwrite the found row's payload in
place (preserving its owner) or insert a new row owned by the resolved
owner.  Returns the written row and the state committed at that point,
which does not yet hold the matching history entry. -/
def upsertConfigState (db : DB) (data config_data : Option ConfigUpdateSchema)
    (user_id : Option Nat) (current_user : Option UserRec) :
    Except Err (ServiceConfigRow × DB) := do
  let input_data ←
    match data.orElse fun _ => config_data with
    | some d => Except.ok d
    | none =>
        Except.error (.valueError "No configuration data provided to update_or_create_config")
  let db_config ← get_config db input_data.name user_id current_user
  match db_config with
  | some row =>
      let updated := { row with config := input_data.config }
      Except.ok (updated,
        { db with configs := db.configs.map (fun r => if r.id == row.id then updated else r) })
  | none =>
      let owner_id? : Option Nat :=
        match user_id with
        | none => current_user.map fun u => u.id
        | some uid => some uid
      match owner_id? with
      | none => Except.error (.valueError "user_id is required to scope config operations")
      | some owner_id =>
          let created : ServiceConfigRow :=
            { id := db.nextConfigId, name := input_data.name, config := input_data.config,
              user_id := owner_id }
          Except.ok (created,
            { db with configs := db.configs ++ [created], nextConfigId := db.nextConfigId + 1 })

/-- `ConfigRepository.update_or_create_config`: the first commit of the
current-state write (`upsertConfigState`) followed by the separately
committed `add_new_version` under the written row's owner. -/
def update_or_create_config (db : DB) (data config_data : Option ConfigUpdateSchema)
    (user_id : Option Nat) (current_user : Option UserRec) :
    Except Err (ServiceConfigRow × DB) := do
  let (row, db1) ← upsertConfigState db data config_data user_id current_user
  let (_, db2) := add_new_version db1 row.name row.config row.user_id
  Except.ok (row, db2)

/-- `ConfigRepository.list_versions`, ordered by version descending. -/
def list_versions (db : DB) (service_name : String) (user_id : Option Nat)
    (current_user : Option UserRec) : Except Err (List ConfigVersionRow) :=
  if isAdminUser current_user then
    match user_id with
    | some uid =>
        .ok (sortVersionsDesc
          (db.versions.filter fun r => r.service_name == service_name && r.user_id == uid))
    | none =>
        .ok (sortVersionsDesc (db.versions.filter fun r => r.service_name == service_name))
  else
    match user_id with
    | none => .error (.valueError "user_id is required for non-admin operations")
    | some uid =>
        .ok (sortVersionsDesc
          (db.versions.filter fun r => r.service_name == service_name && r.user_id == uid))

/-- `ConfigRepository.list_all_configs_for_user`. -/
def list_all_configs_for_user (db : DB) (user_id : Option Nat)
    (current_user : Option UserRec) : Except Err (List ServiceConfigRow) :=
  if isAdminUser current_user then
    match user_id with
    | some uid => .ok (db.configs.filter fun r => r.user_id == uid)
    | none => .ok db.configs
  else
    match user_id with
    | none => .error (.valueError "user_id is required for non-admin operations")
    | some uid => .ok (db.configs.filter fun r => r.user_id == uid)

/-- The report returned by `ConfigRepository.diff_versions`. -/
structure DiffReport where
  service : String
  version1 : Nat
  version2 : Nat
  diff : List DiffEntry

/-- `ConfigRepository.diff_versions`: both versions are filtered by
service_name, user_id and id; a missing user_id matches no row (SQL NULL
comparison).  Missing rows raise 404; otherwise the Diff Engine compares the
two payloads. -/
def diff_versions (db : DB) (service_name : String) (version1_id version2_id : Nat)
    (user_id : Option Nat) : Except Err DiffReport :=
  let v1 := (db.versions.filter fun r =>
    r.service_name == service_name && user_id == some r.user_id && r.id == version1_id).head?
  let v2 := (db.versions.filter fun r =>
    r.service_name == service_name && user_id == some r.user_id && r.id == version2_id).head?
  match v1, v2 with
  | some a, some b =>
      .ok { service := service_name, version1 := version1_id, version2 := version2_id,
            diff := deepDiff a.config b.config }
  | _, _ => .error (.http 404 "One or both versions not found")

/-- `ConfigRepository.delete_config`: look up the row under the caller's
scope; a missing row raises HTTPException(404) at this layer; otherwise the
current-state row is deleted and True is returned.  History rows are left
untouched. -/
def delete_config (db : DB) (service_name : String) (user_id : Option Nat)
    (current_user : Option UserRec) : Except Err (Bool × DB) := do
  let db_config ← get_config db service_name user_id current_user
  match db_config with
  | none => Except.error (.http 404 "Service config not found")
  | some row =>
      Except.ok (true, { db with configs := db.configs.filter (fun r => r.id != row.id) })

/-- The scoped target-version query at the start of
`ConfigRepository.rollback_to_version`: filter by service_name, by owner
according to role, then by primary-key id. -/
def rollbackTargetVersion (db : DB) (service_name : String) (target_version_id : Nat)
    (user_id : Option Nat) (current_user : Option UserRec) :
    Except Err (Option ConfigVersionRow) :=
  if isAdminUser current_user then
    match user_id with
    | some uid =>
        .ok ((db.versions.filter fun r =>
          r.service_name == service_name && r.user_id == uid && r.id == target_version_id).head?)
    | none =>
        .ok ((db.versions.filter fun r =>
          r.service_name == service_name && r.id == target_version_id).head?)
  else
    match user_id with
    | none => .error (.http 400 "user_id is required for non-admin operations")
    | some uid =>
        .ok ((db.versions.filter fun r =>
          r.service_name == service_name && r.user_id == uid && r.id == target_version_id).head?)

/-- The current-state lookup inside `ConfigRepository.rollback_to_version`:
the active config for (service_name, effective owner). -/
def findActiveConfig (db : DB) (service_name : String) (owner : Nat) :
    Option ServiceConfigRow :=
  (db.configs.filter fun r => r.name == service_name && r.user_id == owner).head?

/-- `ConfigRepository.rollback_to_version`: locate the target version under
the resolved scope (404 when absent), take the effective owner from the
target row, locate that owner's active config (404 when absent), overwrite
its payload with the target's payload and commit, then append a new version
entry holding the rolled-back payload via `add_new_version`. -/
def rollback_to_version (db : DB) (service_name : String) (target_version_id : Nat)
    (user_id : Option Nat) (current_user : Option UserRec) :
    Except Err (ServiceConfigRow × DB) := do
  let target? ← rollbackTargetVersion db service_name target_version_id user_id current_user
  match target? with
  | none => Except.error (.http 404 "Version not found")
  | some target_version =>
      let effective_user_id := target_version.user_id
      match findActiveConfig db service_name effective_user_id with
      | none => Except.error (.http 404 "Active config not found")
      | some current_config =>
          let updated := { current_config with config := target_version.config }
          let newConfigs :=
            db.configs.map (fun r => if r.id == current_config.id then updated else r)
          let db1 := { db with configs := newConfigs }
          let (_, db2) := add_new_version db1 service_name target_version.config effective_user_id
          Except.ok (updated, db2)

/-- Scope resolution common to all routes in app/api/routes_config.py: a
non-admin caller's target_user_id is overridden with the caller's own id. -/
def routeScope (user : UserRec) (target_user_id : Option Nat) : Option Nat :=
  if user.role == "admin" then target_user_id else some user.id

/-- Route `GET /config/get`: repository get_config, mapping a missing row to
an HTTP 404. -/
def getConfigRoute (db : DB) (user : UserRec) (service : String)
    (target_user_id : Option Nat) : Except Err ServiceConfigRow := do
  let config ← get_config db service (routeScope user target_user_id) (some user)
  match config with
  | none => Except.error (.http 404 "Service config not found")
  | some c => Except.ok c

/-- Route `GET /config/list`. -/
def listConfigsRoute (db : DB) (user : UserRec) (target_user_id : Option Nat) :
    Except Err (List ServiceConfigRow) :=
  list_all_configs_for_user db (routeScope user target_user_id) (some user)

/-- Route `POST /config/update`. -/
def updateConfigRoute (db : DB) (user : UserRec) (data : ConfigUpdateSchema)
    (target_user_id : Option Nat) : Except Err (ServiceConfigRow × DB) :=
  update_or_create_config db (some data) none (routeScope user target_user_id) (some user)

/-- Route `GET /config/versions/service_name`. -/
def listVersionsRoute (db : DB) (user : UserRec) (service_name : String)
    (target_user_id : Option Nat) : Except Err (List ConfigVersionRow) :=
  list_versions db service_name (routeScope user target_user_id) (some user)

/-- Route `POST /config/rollback/service_name`.  The source calls
`repo.rollback_to_version(service_name, target_version_id, user_id=...)`
without passing current_user, so the repository always takes its non-admin
branch here. -/
def rollbackRoute (db : DB) (user : UserRec) (service_name : String)
    (target_version_id : Nat) (target_user_id : Option Nat) :
    Except Err (ServiceConfigRow × DB) :=
  rollback_to_version db service_name target_version_id (routeScope user target_user_id) none

/-- Route `GET /config/diff/service_name`; the repository's diff_versions
takes no current_user at all. -/
def diffRoute (db : DB) (user : UserRec) (service_name : String)
    (version1_id version2_id : Nat) (target_user_id : Option Nat) : Except Err DiffReport :=
  diff_versions db service_name version1_id version2_id (routeScope user target_user_id)

/-- Route `DELETE /config/delete/service_name`; its own not-found mapping
runs only when the repository returned False. -/
def deleteRoute (db : DB) (user : UserRec) (service_name : String)
    (target_user_id : Option Nat) : Except Err (String × DB) := do
  let (success, db') ← delete_config db service_name (routeScope user target_user_id) (some user)
  if success then Except.ok ("Service config deleted successfully", db')
  else Except.error (.http 404 "Service config not found")

/-! ## Sorting facts about the version ordering -/

theorem sortVersionsDesc_perm (l : List ConfigVersionRow) : (sortVersionsDesc l).Perm l :=
  List.perm_insertionSort versionGE l

theorem sortVersionsDesc_sorted (l : List ConfigVersionRow) :
    List.Sorted versionGE (sortVersionsDesc l) :=
  List.sorted_insertionSort versionGE l

theorem orderedInsert_of_forall_lt (x : ConfigVersionRow) (l : List ConfigVersionRow)
    (h : ∀ y ∈ l, x.version < y.version) :
    List.orderedInsert versionGE x l = l ++ [x] := by
  induction l with
  | nil => rfl
  | cons y ys ih =>
      have hy : x.version < y.version := h y (List.mem_cons_self y ys)
      have hneg : ¬ versionGE x y := by unfold versionGE; omega
      rw [List.orderedInsert, if_neg hneg, ih (fun z hz => h z (List.mem_cons_of_mem y hz))]
      simp

theorem sortVersionsDesc_of_ascending (l : List ConfigVersionRow)
    (h : l.Pairwise (fun a b => a.version < b.version)) :
    sortVersionsDesc l = l.reverse := by
  induction l with
  | nil => rfl
  | cons x xs ih =>
      rw [List.pairwise_cons] at h
      show List.orderedInsert versionGE x (List.insertionSort versionGE xs) = (x :: xs).reverse
      have ih2 : List.insertionSort versionGE xs = xs.reverse := ih h.2
      rw [ih2, orderedInsert_of_forall_lt x xs.reverse
        (fun y hy => h.1 y (List.mem_reverse.mp hy))]
      simp

theorem sortVersionsDesc_head_max (l : List ConfigVersionRow) (x : ConfigVersionRow)
    (hx : x ∈ l) :
    ∃ h, (sortVersionsDesc l).head? = some h ∧ h ∈ l ∧ x.version ≤ h.version := by
  have hperm := sortVersionsDesc_perm l
  have hmem : x ∈ sortVersionsDesc l := hperm.mem_iff.mpr hx
  cases hs : sortVersionsDesc l with
  | nil => rw [hs] at hmem; cases hmem
  | cons hh t =>
      refine ⟨hh, rfl, hperm.subset (by rw [hs]; exact List.mem_cons_self _ _), ?_⟩
      have hsorted := sortVersionsDesc_sorted l
      rw [hs] at hsorted hmem
      rcases List.mem_cons.mp hmem with h1 | h2
      · exact Nat.le_of_eq (by rw [h1])
      · exact List.rel_of_sorted_cons hsorted x h2

theorem pairwise_lt_range' (s n : Nat) : (List.range' s n).Pairwise (· < ·) := by
  induction n generalizing s with
  | zero => simp
  | succ m ih =>
      rw [List.range'_succ]
      refine List.Pairwise.cons ?_ (ih (s + 1))
      intro b hb
      rw [List.mem_range'] at hb
      obtain ⟨i, hi, rfl⟩ := hb
      omega

/-! ## Iterated upserts by a single owner, for the version-sequence invariant -/

/-- A caller with the non-admin role. -/
def userOwner (u : Nat) : UserRec := ⟨u, "user"⟩

/-- The history row created by the k-th upsert of the sequence. -/
def verRow (svc : String) (u : Nat) (p : Nat → JVal) (k : Nat) : ConfigVersionRow :=
  ⟨k, svc, k, p k, u⟩

/-- One upsert of payload c through the update route by the owning user. -/
def upsertStep (svc : String) (u : Nat) (c : JVal) (db : DB) : DB :=
  match updateConfigRoute db (userOwner u) ⟨svc, c⟩ none with
  | .ok (_, db') => db'
  | .error _ => db

/-- n upserts of payloads p 1, ..., p n to the same (service, owner) pair,
starting from the empty database. -/
def upsertN (svc : String) (u : Nat) (p : Nat → JVal) : Nat → DB
  | 0 => DB.empty
  | n + 1 => upsertStep svc u (p (n + 1)) (upsertN svc u p n)

@[simp] theorem except_bind_ok {ε α β : Type} (a : α) (f : α → Except ε β) :
    (Except.ok a : Except ε α) >>= f = f a := rfl

@[simp] theorem except_bind_error {ε α β : Type} (e : ε) (f : α → Except ε β) :
    (Except.error e : Except ε α) >>= f = Except.error e := rfl

theorem range'_one_concat (n : Nat) : List.range' 1 (n + 1) = List.range' 1 n ++ [n + 1] := by
  have h : List.range' 1 (n + 1) = List.range' 1 n ++ [1 + 1 * n] := List.range'_concat 1 n
  simpa [Nat.add_comm] using h

theorem verRow_filter_all (svc : String) (u : Nat) (p : Nat → JVal) (m : Nat) :
    ((List.range' 1 m).map (verRow svc u p)).filter
      (fun r => r.service_name == svc && some u == some r.user_id) =
    (List.range' 1 m).map (verRow svc u p) := by
  refine List.filter_eq_self.mpr ?_
  intro r hr
  rw [List.mem_map] at hr
  obtain ⟨k, _, rfl⟩ := hr
  simp [verRow]

theorem verRow_ascending (svc : String) (u : Nat) (p : Nat → JVal) (m : Nat) :
    ((List.range' 1 m).map (verRow svc u p)).Pairwise (fun a b => a.version < b.version) := by
  refine List.Pairwise.map (verRow svc u p) ?_ (pairwise_lt_range' 1 m)
  intro a b hab
  simpa [verRow] using hab

theorem upsertN_succ_spec (svc : String) (u : Nat) (p : Nat → JVal) : ∀ n : Nat,
    upsertN svc u p (n + 1) =
      { configs := [⟨1, svc, p (n + 1), u⟩],
        versions := (List.range' 1 (n + 1)).map (verRow svc u p),
        nextConfigId := 2,
        nextVersionId := n + 2 } := by
  intro n
  induction n with
  | zero =>
      show upsertStep svc u (p 1) DB.empty = _
      simp [upsertStep, updateConfigRoute, update_or_create_config, upsertConfigState,
        get_config, routeScope, userOwner, isAdminUser, Option.orElse, add_new_version,
        get_latest_version, sortVersionsDesc, DB.empty, verRow, List.range']
  | succ m ih =>
      show upsertStep svc u (p (m + 2)) (upsertN svc u p (m + 1)) = _
      rw [ih]
      set S : DB :=
        { configs := [⟨1, svc, p (m + 1), u⟩],
          versions := (List.range' 1 (m + 1)).map (verRow svc u p),
          nextConfigId := 2,
          nextVersionId := m + 2 } with hS
      have hget : get_config S svc (some u) (some (userOwner u)) =
          Except.ok (some ⟨1, svc, p (m + 1), u⟩) := by
        simp [get_config, isAdminUser, userOwner, hS]
      have hups : upsertConfigState S (some ⟨svc, p (m + 2)⟩) none (some u)
          (some (userOwner u)) =
          Except.ok (⟨1, svc, p (m + 2), u⟩,
            { S with configs := [⟨1, svc, p (m + 2), u⟩] }) := by
        simp only [upsertConfigState, Option.orElse, except_bind_ok, hget]
        simp [hS]
      have hlatest : get_latest_version ({ S with configs := [⟨1, svc, p (m + 2), u⟩] }) svc
          (some u) none = some (verRow svc u p (m + 1)) := by
        simp only [get_latest_version, isAdminUser]
        show (sortVersionsDesc (((List.range' 1 (m + 1)).map (verRow svc u p)).filter
          (fun r => r.service_name == svc && some u == some r.user_id))).head? = _
        rw [verRow_filter_all, sortVersionsDesc_of_ascending _ (verRow_ascending svc u p (m + 1)),
          range'_one_concat]
        simp
      have hadd : add_new_version ({ S with configs := [⟨1, svc, p (m + 2), u⟩] }) svc
          (p (m + 2)) u =
          (⟨m + 2, svc, m + 2, p (m + 2), u⟩,
            { configs := [⟨1, svc, p (m + 2), u⟩],
              versions := (List.range' 1 (m + 2)).map (verRow svc u p),
              nextConfigId := 2,
              nextVersionId := m + 3 }) := by
        simp only [add_new_version, hlatest]
        refine Prod.ext ?_ ?_
        · simp [verRow, hS]
        · simp only [hS]
          refine congrArg (fun v => DB.mk [⟨1, svc, p (m + 2), u⟩] v 2 (m + 3)) ?_
          rw [range'_one_concat (m + 1), List.map_append]
          simp [verRow]
      simp only [upsertStep, updateConfigRoute, update_or_create_config, routeScope, userOwner]
      show (match (do
          let x ← upsertConfigState S (some ⟨svc, p (m + 2)⟩) none
            (if ("user" == "admin") = true then none else some u) (some (userOwner u))
          let db2 := add_new_version x.2 x.1.name x.1.config x.1.user_id
          Except.ok (x.1, db2.2) : Except Err (ServiceConfigRow × DB)) with
        | .ok (_, db') => db'
        | .error _ => S) = _
      rw [if_neg (by decide)]
      rw [hups]
      simp only [except_bind_ok]
      show (match (Except.ok ((⟨1, svc, p (m + 2), u⟩ : ServiceConfigRow),
          (add_new_version ({ S with configs := [⟨1, svc, p (m + 2), u⟩] }) svc
            (p (m + 2)) u).2) : Except Err (ServiceConfigRow × DB)) with
        | .ok (_, db') => db'
        | .error _ => S) = _
      rw [hadd]

theorem verRow_filter_all2 (svc : String) (u : Nat) (p : Nat → JVal) (m : Nat) :
    ((List.range' 1 m).map (verRow svc u p)).filter
      (fun r => r.service_name == svc && r.user_id == u) =
    (List.range' 1 m).map (verRow svc u p) := by
  refine List.filter_eq_self.mpr ?_
  intro r hr
  rw [List.mem_map] at hr
  obtain ⟨k, _, rfl⟩ := hr
  simp [verRow]

/-- C1: for every (service_name, owner_id) pair, the stored ConfigVersion
version numbers are gap-free: each upsert appends one plus the maximum
existing version (1 when none exist), so after any sequence of N upserts to
the same pair the version numbers are exactly 1..N (newest first in
list_versions) and the first element of list_versions has version N. -/
theorem upsert_version_sequence (svc : String) (u : Nat) (p : Nat → JVal) (n : Nat) :
    ∃ l, list_versions (upsertN svc u p n) svc (some u) (some (userOwner u)) = Except.ok l ∧
      l.map (fun r => r.version) = (List.range' 1 n).reverse ∧
      (0 < n → l.head?.map (fun r => r.version) = some n) := by
  cases n with
  | zero =>
      refine ⟨[], ?_, by simp, by omega⟩
      simp [upsertN, DB.empty, list_versions, isAdminUser, userOwner, sortVersionsDesc]
  | succ m =>
      rw [upsertN_succ_spec]
      refine ⟨((List.range' 1 (m + 1)).map (verRow svc u p)).reverse, ?_, ?_, ?_⟩
      · have hsort := sortVersionsDesc_of_ascending _ (verRow_ascending svc u p (m + 1))
        simp only [list_versions, isAdminUser, userOwner]
        rw [if_neg (by decide)]
        show Except.ok (sortVersionsDesc (((List.range' 1 (m + 1)).map (verRow svc u p)).filter
          (fun r => r.service_name == svc && r.user_id == u))) = _
        rw [verRow_filter_all2, hsort]
      · rw [List.map_reverse, List.map_map]
        have : ((fun r : ConfigVersionRow => r.version) ∘ verRow svc u p) = fun k => k := by
          funext k; simp [verRow]
        rw [this, List.map_id']
      · intro _
        rw [range'_one_concat, List.map_append, List.reverse_append]
        simp [verRow]

/-- Witness for C1 at three concrete upserts. -/
theorem upsert_version_sequence_witness :
    ∃ l, list_versions (upsertN "svc" 7 (fun _ => JVal.null) 3) "svc" (some 7)
        (some (userOwner 7)) = Except.ok l ∧
      l.map (fun r => r.version) = [3, 2, 1] ∧ l.head?.map (fun r => r.version) = some 3 := by
  obtain ⟨l, h1, h2, h3⟩ := upsert_version_sequence "svc" 7 (fun _ => JVal.null) 3
  exact ⟨l, h1, by rw [h2]; rfl, h3 (by decide)⟩

/-- C6: every upsert that finds an existing ServiceConfig row (including an
admin upsert with no explicit target that hits another user's row) only
overwrites that row's payload: its owner_id is unchanged, no ServiceConfig
row is created or removed, and the appended ConfigVersion entry is recorded
under the found row's owner, not under the caller. -/
theorem upsert_found_preserves_owner (db : DB) (data : ConfigUpdateSchema) (uid : Option Nat)
    (cu : Option UserRec) (row : ServiceConfigRow)
    (hfound : get_config db data.name uid cu = Except.ok (some row)) :
    ∃ v db', update_or_create_config db (some data) none uid cu =
        Except.ok ({ row with config := data.config }, db') ∧
      db'.configs = db.configs.map
        (fun r => if r.id == row.id then { row with config := data.config } else r) ∧
      db'.configs.length = db.configs.length ∧
      db'.versions = db.versions ++ [v] ∧
      v.user_id = row.user_id ∧ v.config = data.config ∧ v.service_name = row.name := by
  set updated : ServiceConfigRow := { row with config := data.config } with hup
  set db1 : DB :=
    { db with configs := db.configs.map (fun r => if r.id == row.id then updated else r) }
    with hdb1
  have hups : upsertConfigState db (some data) none uid cu = Except.ok (updated, db1) := by
    simp only [upsertConfigState, Option.orElse, except_bind_ok, hfound]
  set v : ConfigVersionRow :=
    ⟨db.nextVersionId, row.name,
      match get_latest_version db1 row.name (some row.user_id) none with
      | some w => w.version + 1
      | none => 1,
      data.config, row.user_id⟩ with hv
  set db2 : DB := ⟨db1.configs, db1.versions ++ [v], db1.nextConfigId, db.nextVersionId + 1⟩
    with hdb2
  refine ⟨v, db2, ?_, by simp [hdb2, hdb1], by simp [hdb2, hdb1], ?_, rfl, rfl, rfl⟩
  · simp only [update_or_create_config, hups, except_bind_ok]
    rfl
  · simp [hdb2, hdb1]

/-- Witness for C6: an admin with no explicit target updates a row owned by
user 7; the owner and row count are preserved and the version is appended
under owner 7. -/
theorem upsert_found_preserves_owner_witness :
    ∃ v db', update_or_create_config ⟨[⟨1, "svc", JVal.num 1, 7⟩], [], 2, 1⟩
        (some ⟨"svc", JVal.num 2⟩) none none (some ⟨99, "admin"⟩) =
        Except.ok ((⟨1, "svc", JVal.num 2, 7⟩ : ServiceConfigRow), db') ∧
      db'.configs = [⟨1, "svc", JVal.num 2, 7⟩] ∧
      db'.configs.length = 1 ∧
      db'.versions = [] ++ [v] ∧
      v.user_id = 7 ∧ v.config = JVal.num 2 ∧ v.service_name = "svc" := by
  obtain ⟨v, db', h1, h2, h3, h4, h5, h6, h7⟩ :=
    upsert_found_preserves_owner ⟨[⟨1, "svc", JVal.num 1, 7⟩], [], 2, 1⟩
      ⟨"svc", JVal.num 2⟩ none (some ⟨99, "admin"⟩) ⟨1, "svc", JVal.num 1, 7⟩ (by rfl)
  exact ⟨v, db', h1, by rw [h2]; rfl, by rw [h3]; rfl, h4, h5, h6, h7⟩

/-- C7 counterexample: the repository-level delete of a missing row raises
the HTTP-style 404 itself rather than returning a found/not-found boolean,
so the claim that not-found does not raise at this layer is false. -/
theorem delete_missing_raises_counterexample :
    delete_config DB.empty "svc" (some 1) (some ⟨1, "user"⟩) =
      Except.error (Err.http 404 "Service config not found") := rfl

/-- C7 amended: the repository delete raises the HTTP-style 404 itself when
no row matches the resolved scope; when a row matches it returns True with
the row removed, so the caller's own not-found mapping (triggered only by a
False result) is unreachable. -/
theorem delete_config_amended (db : DB) (svc : String) (uid : Option Nat)
    (cu : Option UserRec) :
    (get_config db svc uid cu = Except.ok none →
      delete_config db svc uid cu = Except.error (Err.http 404 "Service config not found")) ∧
    (∀ row, get_config db svc uid cu = Except.ok (some row) →
      delete_config db svc uid cu =
        Except.ok (true, { db with configs := db.configs.filter (fun r => r.id != row.id) })) ∧
    (∀ b db', delete_config db svc uid cu = Except.ok (b, db') → b = true) := by
  refine ⟨?_, ?_, ?_⟩
  · intro h; simp only [delete_config, h, except_bind_ok]
  · intro row h; simp only [delete_config, h, except_bind_ok]
  · intro b db' h
    cases hg : get_config db svc uid cu with
    | error e =>
        simp only [delete_config, hg, except_bind_error] at h
        exact Except.noConfusion h
    | ok o =>
        cases o with
        | none =>
            simp only [delete_config, hg, except_bind_ok] at h
            exact Except.noConfusion h
        | some row =>
            simp only [delete_config, hg, except_bind_ok, Except.ok.injEq, Prod.mk.injEq] at h
            exact h.1.symm

/-- Witness for C7's amended statement at concrete inputs. -/
theorem delete_config_amended_witness :
    delete_config DB.empty "svc" (some 1) (some ⟨1, "user"⟩) =
      Except.error (Err.http 404 "Service config not found") ∧
    delete_config ⟨[⟨1, "svc", JVal.null, 7⟩], [], 2, 1⟩ "svc" (some 7) (some ⟨7, "user"⟩) =
      Except.ok (true, ⟨[], [], 2, 1⟩) := by
  constructor
  · exact (delete_config_amended DB.empty "svc" (some 1) (some ⟨1, "user"⟩)).1 (by rfl)
  · have h := (delete_config_amended ⟨[⟨1, "svc", JVal.null, 7⟩], [], 2, 1⟩ "svc" (some 7)
      (some ⟨7, "user"⟩)).2.1 ⟨1, "svc", JVal.null, 7⟩ (by rfl)
    rw [h]; rfl

/-- C8: deleting a ServiceConfig row leaves every ConfigVersion row
unchanged (list_versions answers exactly as before for any scope), and the
version number the ledger would assign next for any pair is unchanged, so a
later upsert for the deleted pair continues at old max + 1 rather than
restarting at 1. -/
theorem delete_preserves_versions (db : DB) (svc : String) (uid : Option Nat)
    (cu : Option UserRec) (row : ServiceConfigRow)
    (hfound : get_config db svc uid cu = Except.ok (some row)) :
    ∃ db', delete_config db svc uid cu = Except.ok (true, db') ∧
      db'.versions = db.versions ∧
      (∀ s2 uid2 cu2, list_versions db' s2 uid2 cu2 = list_versions db s2 uid2 cu2) ∧
      (∀ s2 c u, (add_new_version db' s2 c u).1.version =
        (add_new_version db s2 c u).1.version) := by
  refine ⟨{ db with configs := db.configs.filter (fun r => r.id != row.id) }, ?_, rfl,
    fun _ _ _ => rfl, fun _ _ _ => rfl⟩
  simp only [delete_config, hfound, except_bind_ok]

/-- Witness for C8: after deleting the pair's current-state row, the two
history rows survive and the ledger still assigns version 3 next. -/
theorem delete_preserves_versions_witness :
    ∃ db', delete_config
        ⟨[⟨1, "svc", JVal.num 2, 7⟩],
         [⟨1, "svc", 1, JVal.num 1, 7⟩, ⟨2, "svc", 2, JVal.num 2, 7⟩], 2, 3⟩
        "svc" (some 7) (some ⟨7, "user"⟩) = Except.ok (true, db') ∧
      db'.versions = [⟨1, "svc", 1, JVal.num 1, 7⟩, ⟨2, "svc", 2, JVal.num 2, 7⟩] ∧
      (add_new_version db' "svc" JVal.null 7).1.version = 3 := by
  obtain ⟨db', h1, h2, _, h4⟩ := delete_preserves_versions
    ⟨[⟨1, "svc", JVal.num 2, 7⟩],
     [⟨1, "svc", 1, JVal.num 1, 7⟩, ⟨2, "svc", 2, JVal.num 2, 7⟩], 2, 3⟩
    "svc" (some 7) (some ⟨7, "user"⟩) ⟨1, "svc", JVal.num 2, 7⟩ (by rfl)
  refine ⟨db', h1, h2, ?_⟩
  rw [h4 "svc" JVal.null 7]
  rfl

/-- The in-place payload overwrite committed inside rollback. -/
def replaceConfigPayload (db : DB) (curId : Nat) (updated : ServiceConfigRow) : DB :=
  { db with configs := db.configs.map (fun r => if r.id == curId then updated else r) }

theorem head_mem_of_head? {α : Type} {l : List α} {a : α} (h : l.head? = some a) : a ∈ l := by
  obtain ⟨ys, rfl⟩ := List.head?_eq_some_iff.mp h
  exact List.mem_cons_self a ys

theorem row_eq_of_id_eq {l : List ServiceConfigRow}
    (hids : l.Pairwise (fun a b => a.id ≠ b.id)) {cur r : ServiceConfigRow}
    (hcur : cur ∈ l) (hr : r ∈ l) (hid : r.id = cur.id) : r = cur := by
  by_contra hne
  have hsymm : Symmetric (fun a b : ServiceConfigRow => a.id ≠ b.id) := by
    intro a b h heq
    exact h heq.symm
  exact (hids.forall hsymm hr hcur hne) hid

theorem rollbackTarget_props (db : DB) (svc : String) (vid : Nat) (uid : Option Nat)
    (cu : Option UserRec) (tv : ConfigVersionRow)
    (htv : rollbackTargetVersion db svc vid uid cu = Except.ok (some tv)) :
    tv ∈ db.versions ∧ tv.service_name = svc ∧ tv.id = vid := by
  unfold rollbackTargetVersion at htv
  split at htv
  · cases uid with
    | some u =>
        simp only [Except.ok.injEq] at htv
        have hm := head_mem_of_head? htv
        rw [List.mem_filter] at hm
        obtain ⟨hmem, hcond⟩ := hm
        rw [Bool.and_eq_true, Bool.and_eq_true, beq_iff_eq, beq_iff_eq, beq_iff_eq] at hcond
        exact ⟨hmem, hcond.1.1, hcond.2⟩
    | none =>
        simp only [Except.ok.injEq] at htv
        have hm := head_mem_of_head? htv
        rw [List.mem_filter] at hm
        obtain ⟨hmem, hcond⟩ := hm
        rw [Bool.and_eq_true, beq_iff_eq, beq_iff_eq] at hcond
        exact ⟨hmem, hcond.1, hcond.2⟩
  · cases uid with
    | some u =>
        simp only [Except.ok.injEq] at htv
        have hm := head_mem_of_head? htv
        rw [List.mem_filter] at hm
        obtain ⟨hmem, hcond⟩ := hm
        rw [Bool.and_eq_true, Bool.and_eq_true, beq_iff_eq, beq_iff_eq, beq_iff_eq] at hcond
        exact ⟨hmem, hcond.1.1, hcond.2⟩
    | none => exact Except.noConfusion htv

theorem get_latest_some (db : DB) (svc : String) (u : Nat) (tv : ConfigVersionRow)
    (hmem : tv ∈ db.versions) (hsvc : tv.service_name = svc) (huid : tv.user_id = u) :
    ∃ lv, get_latest_version db svc (some u) none = some lv ∧
      tv.version ≤ lv.version ∧
      ∀ w ∈ db.versions, w.service_name = svc → w.user_id = u →
        w.version ≤ lv.version := by
  have hmf : tv ∈ db.versions.filter
      (fun r => r.service_name == svc && some u == some r.user_id) :=
    List.mem_filter.mpr ⟨hmem, by simp [hsvc, huid]⟩
  obtain ⟨h, hh, _, hle⟩ := sortVersionsDesc_head_max _ tv hmf
  refine ⟨h, hh, hle, ?_⟩
  intro w hw hws hwu
  have hwf : w ∈ db.versions.filter
      (fun r => r.service_name == svc && some u == some r.user_id) :=
    List.mem_filter.mpr ⟨hw, by simp [hws, hwu]⟩
  obtain ⟨h2, hh2, _, hle2⟩ := sortVersionsDesc_head_max _ w hwf
  rw [hh] at hh2
  cases hh2
  exact hle2

/-- C2: every rollback to an existing target version owned by the resolved
owner, when a current-state row exists for that owner, overwrites the
current-state payload with the target version's payload, appends exactly one
new ConfigVersion with number max + 1 and the same payload (no existing
version row is touched), grows the list_versions count by exactly one, and
returns the updated current-state row. -/
theorem rollback_appends_version (db : DB) (svc : String) (vid : Nat) (uid : Option Nat)
    (cu : Option UserRec) (tv : ConfigVersionRow) (cur : ServiceConfigRow)
    (htv : rollbackTargetVersion db svc vid uid cu = Except.ok (some tv))
    (hcur : findActiveConfig db svc tv.user_id = some cur)
    (hids : db.configs.Pairwise (fun a b => a.id ≠ b.id)) :
    ∃ newv lv db',
      rollback_to_version db svc vid uid cu =
        Except.ok ({ cur with config := tv.config }, db') ∧
      findActiveConfig db' svc tv.user_id = some { cur with config := tv.config } ∧
      get_latest_version db svc (some tv.user_id) none = some lv ∧
      (∀ w ∈ db.versions, w.service_name = svc → w.user_id = tv.user_id →
        w.version ≤ lv.version) ∧
      db'.versions = db.versions ++ [newv] ∧
      newv.config = tv.config ∧ newv.user_id = tv.user_id ∧
      newv.version = lv.version + 1 ∧
      (∃ lOld lNew, list_versions db svc (some tv.user_id) none = Except.ok lOld ∧
        list_versions db' svc (some tv.user_id) none = Except.ok lNew ∧
        lNew.length = lOld.length + 1) := by
  obtain ⟨htmem, htsvc, _⟩ := rollbackTarget_props db svc vid uid cu tv htv
  obtain ⟨lv, hlv, _, hmax⟩ := get_latest_some db svc tv.user_id tv htmem htsvc rfl
  have hcurmem := head_mem_of_head? hcur
  rw [List.mem_filter] at hcurmem
  obtain ⟨hcmem, hccond⟩ := hcurmem
  rw [Bool.and_eq_true, beq_iff_eq, beq_iff_eq] at hccond
  obtain ⟨hcname, hcuser⟩ := hccond
  set A := add_new_version
    (replaceConfigPayload db cur.id { cur with config := tv.config })
    svc tv.config tv.user_id with hA
  have hlatest1 : get_latest_version
      (replaceConfigPayload db cur.id { cur with config := tv.config })
      svc (some tv.user_id) none = some lv := hlv
  refine ⟨A.1, lv, A.2, ?_, ?_, hlv, hmax, rfl, rfl, rfl, ?_, ?_⟩
  · simp only [rollback_to_version, htv, except_bind_ok, hcur]
    rfl
  · have hcur2 : (db.configs.filter
        (fun r => r.name == svc && r.user_id == tv.user_id)).head? = some cur := hcur
    show ((db.configs.map
        (fun r => if r.id == cur.id then { cur with config := tv.config } else r)).filter
      (fun r => r.name == svc && r.user_id == tv.user_id)).head? =
      some { cur with config := tv.config }
    rw [List.filter_map]
    have hcongr : db.configs.filter ((fun r : ServiceConfigRow =>
        r.name == svc && r.user_id == tv.user_id) ∘
        (fun r => if r.id == cur.id then { cur with config := tv.config } else r)) =
        db.configs.filter (fun r => r.name == svc && r.user_id == tv.user_id) := by
      refine List.filter_congr ?_
      intro r hr
      by_cases hid : (r.id == cur.id) = true
      · have : r = cur := row_eq_of_id_eq hids hcmem hr (beq_iff_eq.mp hid)
        subst this
        simp [Function.comp, hid]
      · simp [Function.comp, hid]
    rw [hcongr, List.head?_map, hcur2]
    simp
  · show (match get_latest_version
        (replaceConfigPayload db cur.id { cur with config := tv.config })
        svc (some tv.user_id) none with
      | some w => w.version + 1
      | none => 1) = lv.version + 1
    rw [hlatest1]
  · refine ⟨sortVersionsDesc (db.versions.filter
      (fun r => r.service_name == svc && r.user_id == tv.user_id)),
      sortVersionsDesc ((db.versions ++ [A.1]).filter
      (fun r => r.service_name == svc && r.user_id == tv.user_id)), rfl, rfl, ?_⟩
    rw [(sortVersionsDesc_perm _).length_eq, (sortVersionsDesc_perm _).length_eq,
      List.filter_append]
    have hA1 : ((fun r : ConfigVersionRow =>
        r.service_name == svc && r.user_id == tv.user_id) A.1) = true := by
      simp [hA, add_new_version]
    rw [List.length_append]
    simp [hA1]

/-- Witness for C2: rolling user 5's service "app" back to version 1 appends
version 3 holding version 1's payload and updates the current-state row. -/
theorem rollback_appends_version_witness :
    ∃ (newv lv : ConfigVersionRow) (db' : DB),
      rollback_to_version ⟨[⟨1, "app", JVal.num 2, 5⟩],
        [⟨1, "app", 1, JVal.num 1, 5⟩, ⟨2, "app", 2, JVal.num 2, 5⟩], 2, 3⟩ "app" 1 (some 5)
        (some ⟨5, "user"⟩) = Except.ok ((⟨1, "app", JVal.num 1, 5⟩ : ServiceConfigRow), db') ∧
      db'.versions = [⟨1, "app", 1, JVal.num 1, 5⟩, ⟨2, "app", 2, JVal.num 2, 5⟩] ++ [newv] ∧
      newv.version = 3 ∧ newv.config = JVal.num 1 ∧ lv.version = 2 := by
  obtain ⟨newv, lv, db', h1, _, h3, _, h5, h6, _, h8, _⟩ :=
    rollback_appends_version ⟨[⟨1, "app", JVal.num 2, 5⟩],
      [⟨1, "app", 1, JVal.num 1, 5⟩, ⟨2, "app", 2, JVal.num 2, 5⟩], 2, 3⟩ "app" 1 (some 5)
      (some ⟨5, "user"⟩) ⟨1, "app", 1, JVal.num 1, 5⟩ ⟨1, "app", JVal.num 2, 5⟩
      (by rfl) (by rfl) (by simp)
  have hlv : get_latest_version ⟨[⟨1, "app", JVal.num 2, 5⟩],
      [⟨1, "app", 1, JVal.num 1, 5⟩, ⟨2, "app", 2, JVal.num 2, 5⟩], 2, 3⟩ "app" (some 5) none =
      some ⟨2, "app", 2, JVal.num 2, 5⟩ := by rfl
  rw [hlv] at h3
  injection h3 with h3
  refine ⟨newv, lv, db', h1, h5, ?_, h6, ?_⟩
  · rw [h8, ← h3]
  · rw [← h3]

theorem upsertConfigState_versions (db : DB) (data config_data : Option ConfigUpdateSchema)
    (uid : Option Nat) (cu : Option UserRec) (row : ServiceConfigRow) (db1 : DB)
    (h : upsertConfigState db data config_data uid cu = Except.ok (row, db1)) :
    db1.versions = db.versions ∧ db1.nextVersionId = db.nextVersionId := by
  cases hi : data.orElse fun _ => config_data with
  | none => simp [upsertConfigState, hi] at h
  | some d =>
      cases hg : get_config db d.name uid cu with
      | error e => simp [upsertConfigState, hi, hg] at h
      | ok o =>
          cases o with
          | some r =>
              simp [upsertConfigState, hi, hg] at h
              rw [← h.2]
              exact ⟨rfl, rfl⟩
          | none =>
              cases uid with
              | some uid2 =>
                  simp [upsertConfigState, hi, hg] at h
                  rw [← h.2]
                  exact ⟨rfl, rfl⟩
              | none =>
                  cases cu with
                  | none => simp [upsertConfigState, hi, hg] at h
                  | some user =>
                      simp [upsertConfigState, hi, hg] at h
                      rw [← h.2]
                      exact ⟨rfl, rfl⟩

/-- C3 counterexample: the first commit of update_or_create_config (the
current-state write) leaves the versions table untouched; the matching
history entry is only written by the separately committed add_new_version.
The state visible after the first commit therefore holds a current-state
change without its history entry, so the two writes are not in one logical
transaction and a failure between the commits violates both-or-neither. -/
theorem upsert_two_commits_counterexample :
    ∃ row db1, upsertConfigState DB.empty (some ⟨"svc", JVal.null⟩) none (some 7)
        (some ⟨7, "user"⟩) = Except.ok (row, db1) ∧
      db1.configs ≠ DB.empty.configs ∧ db1.versions = DB.empty.versions := by
  exact ⟨⟨1, "svc", JVal.null, 7⟩, ⟨[⟨1, "svc", JVal.null, 7⟩], [], 2, 1⟩, by rfl,
    by simp [DB.empty], rfl⟩

/-- C3 amended: update_or_create_config consists of two separately committed
writes: the first commit changes only the current-state table (history and
the version counter unchanged), and the second commit appends exactly one
matching history entry under the written row's owner; only after both
commits does the change have its history entry. An upsert that fails does so
before the first commit and leaves both stores unchanged. -/
theorem upsert_two_commit_structure (db : DB) (data config_data : Option ConfigUpdateSchema)
    (uid : Option Nat) (cu : Option UserRec) :
    (∀ row db', update_or_create_config db data config_data uid cu = Except.ok (row, db') →
      ∃ db1 v, upsertConfigState db data config_data uid cu = Except.ok (row, db1) ∧
        db1.versions = db.versions ∧
        add_new_version db1 row.name row.config row.user_id = (v, db') ∧
        db'.versions = db.versions ++ [v] ∧ v.config = row.config ∧
        v.user_id = row.user_id ∧ v.service_name = row.name) ∧
    (∀ e, update_or_create_config db data config_data uid cu = Except.error e →
      upsertConfigState db data config_data uid cu = Except.error e) := by
  constructor
  · intro row db' h
    cases hp : upsertConfigState db data config_data uid cu with
    | error e =>
        simp only [update_or_create_config, hp, except_bind_error] at h
        exact Except.noConfusion h
    | ok pr =>
        obtain ⟨row1, db1⟩ := pr
        simp only [update_or_create_config, hp, except_bind_ok, Except.ok.injEq,
          Prod.mk.injEq] at h
        obtain ⟨hrow, hdb⟩ := h
        subst hrow
        obtain ⟨hvers, _⟩ := upsertConfigState_versions db data config_data uid cu row1 db1 hp
        refine ⟨db1, (add_new_version db1 row1.name row1.config row1.user_id).1, rfl, hvers,
          ?_, ?_, rfl, rfl, rfl⟩
        · rw [← hdb]
        · rw [← hdb]
          show db1.versions ++ [(add_new_version db1 row1.name row1.config row1.user_id).1] =
            db.versions ++ [(add_new_version db1 row1.name row1.config row1.user_id).1]
          rw [hvers]
  · intro e h
    cases hp : upsertConfigState db data config_data uid cu with
    | error e2 =>
        simp only [update_or_create_config, hp, except_bind_error, Except.error.injEq] at h
        rw [h]
    | ok pr =>
        obtain ⟨row1, db1⟩ := pr
        simp only [update_or_create_config, hp, except_bind_ok] at h
        exact Except.noConfusion h

/-- Witness for C3's amended statement: a concrete successful upsert shows
the first commit, the version-table-preserving intermediate state, and the
second commit appending the matching entry. -/
theorem upsert_two_commit_structure_witness :
    ∃ db1 v, upsertConfigState DB.empty (some ⟨"svc", JVal.null⟩) none (some 7)
        (some ⟨7, "user"⟩) =
        Except.ok ((⟨1, "svc", JVal.null, 7⟩ : ServiceConfigRow), db1) ∧
      db1.versions = DB.empty.versions ∧
      add_new_version db1 "svc" JVal.null 7 =
        (v, ⟨[⟨1, "svc", JVal.null, 7⟩], [⟨1, "svc", 1, JVal.null, 7⟩], 2, 2⟩) ∧
      (⟨[⟨1, "svc", JVal.null, 7⟩], [⟨1, "svc", 1, JVal.null, 7⟩], 2, 2⟩ : DB).versions =
        DB.empty.versions ++ [v] ∧
      v.config = JVal.null ∧ v.user_id = 7 ∧ v.service_name = "svc" :=
  (upsert_two_commit_structure DB.empty (some ⟨"svc", JVal.null⟩) none (some 7)
    (some ⟨7, "user"⟩)).1 ⟨1, "svc", JVal.null, 7⟩
    ⟨[⟨1, "svc", JVal.null, 7⟩], [⟨1, "svc", 1, JVal.null, 7⟩], 2, 2⟩ (by rfl)

/-- C4 counterexample: with a matching version row owned by user 7 present,
an admin caller with no explicit target owner receives a 400 invalid-scope
error from the rollback route (the route does not forward the caller so the
repository takes its non-admin branch) and a 404 from diff, although the
claim requires an unscoped search across owners that fails with NotFound
only when no row matches at all. -/
theorem admin_unscoped_counterexample :
    rollbackRoute ⟨[⟨1, "svc", JVal.null, 7⟩], [⟨1, "svc", 1, JVal.null, 7⟩], 2, 2⟩
      ⟨99, "admin"⟩ "svc" 1 none =
      Except.error (Err.http 400 "user_id is required for non-admin operations") ∧
    diffRoute ⟨[⟨1, "svc", JVal.null, 7⟩], [⟨1, "svc", 1, JVal.null, 7⟩], 2, 2⟩
      ⟨99, "admin"⟩ "svc" 1 1 none =
      Except.error (Err.http 404 "One or both versions not found") ∧
    (⟨1, "svc", 1, JVal.null, 7⟩ : ConfigVersionRow) ∈
      (⟨[⟨1, "svc", JVal.null, 7⟩], [⟨1, "svc", 1, JVal.null, 7⟩], 2, 2⟩ : DB).versions :=
  ⟨by rfl, by rfl, by simp⟩

/-- C4 amended: for an admin caller with no explicit target owner, get,
list and list_versions do resolve to an unscoped search across all owners;
but diff always fails with NotFound (its owner filter can never match
without an explicit target), and rollback through the route fails with a
400 invalid-scope error because the route never passes the caller to the
repository. -/
theorem admin_unscoped_behavior (db : DB) (admin : UserRec) (h : admin.role = "admin")
    (svc : String) (vid v2 : Nat) :
    getConfigRoute db admin svc none =
      (match (db.configs.filter (fun r => r.name == svc)).head? with
       | some c => Except.ok c
       | none => Except.error (Err.http 404 "Service config not found")) ∧
    listConfigsRoute db admin none = Except.ok db.configs ∧
    listVersionsRoute db admin svc none =
      Except.ok (sortVersionsDesc (db.versions.filter (fun r => r.service_name == svc))) ∧
    rollbackRoute db admin svc vid none =
      Except.error (Err.http 400 "user_id is required for non-admin operations") ∧
    diffRoute db admin svc vid v2 none =
      Except.error (Err.http 404 "One or both versions not found") := by
  have hb : (admin.role == "admin") = true := by simp [h]
  refine ⟨?_, ?_, ?_, ?_, ?_⟩
  · simp only [getConfigRoute, routeScope, hb, if_true, get_config, isAdminUser]
    cases hh : (db.configs.filter (fun r => r.name == svc)).head? <;> simp [hh]
  · simp [listConfigsRoute, routeScope, hb, list_all_configs_for_user, isAdminUser]
  · simp [listVersionsRoute, routeScope, hb, list_versions, isAdminUser]
  · simp [rollbackRoute, routeScope, hb, rollback_to_version, rollbackTargetVersion,
      isAdminUser]
  · simp only [diffRoute, routeScope, hb, if_true, diff_versions]
    have hfalse : ∀ w : Nat, ∀ r : ConfigVersionRow,
        (r.service_name == svc && (none : Option Nat) == some r.user_id && r.id == w) =
        false := by
      intro w r
      simp
    rw [List.filter_congr (fun r _ => hfalse vid r), List.filter_congr (fun r _ => hfalse v2 r)]
    simp

/-- Witness for C4's amended statement at a concrete database owned by
user 7 and the admin caller 99 with no explicit target. -/
theorem admin_unscoped_behavior_witness :
    getConfigRoute ⟨[⟨1, "svc", JVal.null, 7⟩], [⟨1, "svc", 1, JVal.null, 7⟩], 2, 2⟩
      ⟨99, "admin"⟩ "svc" none = Except.ok ⟨1, "svc", JVal.null, 7⟩ ∧
    listConfigsRoute ⟨[⟨1, "svc", JVal.null, 7⟩], [⟨1, "svc", 1, JVal.null, 7⟩], 2, 2⟩
      ⟨99, "admin"⟩ none = Except.ok [⟨1, "svc", JVal.null, 7⟩] ∧
    listVersionsRoute ⟨[⟨1, "svc", JVal.null, 7⟩], [⟨1, "svc", 1, JVal.null, 7⟩], 2, 2⟩
      ⟨99, "admin"⟩ "svc" none = Except.ok [⟨1, "svc", 1, JVal.null, 7⟩] ∧
    rollbackRoute ⟨[⟨1, "svc", JVal.null, 7⟩], [⟨1, "svc", 1, JVal.null, 7⟩], 2, 2⟩
      ⟨99, "admin"⟩ "svc" 1 none =
      Except.error (Err.http 400 "user_id is required for non-admin operations") ∧
    diffRoute ⟨[⟨1, "svc", JVal.null, 7⟩], [⟨1, "svc", 1, JVal.null, 7⟩], 2, 2⟩
      ⟨99, "admin"⟩ "svc" 1 1 none =
      Except.error (Err.http 404 "One or both versions not found") := by
  obtain ⟨h1, h2, h3, h4, h5⟩ := admin_unscoped_behavior
    ⟨[⟨1, "svc", JVal.null, 7⟩], [⟨1, "svc", 1, JVal.null, 7⟩], 2, 2⟩ ⟨99, "admin"⟩ rfl
    "svc" 1 1
  exact ⟨by rw [h1]; rfl, by rw [h2], by rw [h3]; rfl, h4, h5⟩

/-! ## C5: owner scoping of non-admin callers -/

/-- The database restricted to the rows owned by one user. -/
def DB.scrub (db : DB) (uid : Nat) : DB :=
  ⟨db.configs.filter (fun r => r.user_id == uid),
   db.versions.filter (fun r => r.user_id == uid),
   db.nextConfigId, db.nextVersionId⟩

@[simp] theorem scrub_versions (db : DB) (u : Nat) :
    (db.scrub u).versions = db.versions.filter (fun r => r.user_id == u) := rfl

@[simp] theorem scrub_configs (db : DB) (u : Nat) :
    (db.scrub u).configs = db.configs.filter (fun r => r.user_id == u) := rfl

theorem band_true_left {a b : Bool} (h : (a && b) = true) : a = true := by
  cases a <;> simp_all

theorem band_true_right {a b : Bool} (h : (a && b) = true) : b = true := by
  cases a <;> simp_all

theorem filter_filter_of_imp {α : Type} (p q : α → Bool) (l : List α)
    (h : ∀ a, p a = true → q a = true) : (l.filter q).filter p = l.filter p := by
  rw [List.filter_filter]
  refine List.filter_congr ?_
  intro a _
  cases hp : p a
  · simp
  · simp [h a hp]

/-- C5: for a caller whose role is not admin, every read, list, diff and
rollback answers exactly as it would on the database stripped of all rows
the caller does not own.  An attempt on another owner's row therefore gets
the same NotFound outcome as true absence and never a distinct permission
error, so responses cannot reveal whether a resource exists under a
different owner. -/
theorem user_scope_noninterference (db : DB) (caller : UserRec)
    (h : caller.role ≠ "admin") (svc : String) (t : Option Nat) (vid v2 : Nat) :
    getConfigRoute db caller svc t = getConfigRoute (db.scrub caller.id) caller svc t ∧
    listConfigsRoute db caller t = listConfigsRoute (db.scrub caller.id) caller t ∧
    listVersionsRoute db caller svc t =
      listVersionsRoute (db.scrub caller.id) caller svc t ∧
    diffRoute db caller svc vid v2 t = diffRoute (db.scrub caller.id) caller svc vid v2 t ∧
    (rollbackRoute db caller svc vid t).map Prod.fst =
      (rollbackRoute (db.scrub caller.id) caller svc vid t).map Prod.fst := by
  have hb : (caller.role == "admin") = false := by
    rw [beq_eq_false_iff_ne]
    exact h
  have hscope : routeScope caller t = some caller.id := by
    simp [routeScope, hb]
  refine ⟨?_, ?_, ?_, ?_, ?_⟩
  · simp only [getConfigRoute, hscope, get_config, isAdminUser, hb, Bool.false_eq_true,
      if_false, scrub_configs]
    rw [filter_filter_of_imp _ _ db.configs (fun a ha => band_true_right ha)]
  · simp only [listConfigsRoute, hscope, list_all_configs_for_user, isAdminUser, hb,
      Bool.false_eq_true, if_false, scrub_configs]
    rw [filter_filter_of_imp _ _ db.configs (fun a ha => ha)]
  · simp only [listVersionsRoute, hscope, list_versions, isAdminUser, hb,
      Bool.false_eq_true, if_false, scrub_versions]
    rw [filter_filter_of_imp _ _ db.versions (fun a ha => band_true_right ha)]
  · simp only [diffRoute, hscope, diff_versions, scrub_versions]
    have himp : ∀ w : Nat, ∀ a : ConfigVersionRow,
        (a.service_name == svc && some caller.id == some a.user_id && a.id == w) = true →
        (a.user_id == caller.id) = true := by
      intro w a ha
      rw [Bool.and_eq_true, Bool.and_eq_true] at ha
      have h2 := ha.1.2
      rw [beq_iff_eq] at h2
      rw [beq_iff_eq]
      exact (Option.some.inj h2).symm
    rw [filter_filter_of_imp _ _ db.versions (himp vid),
      filter_filter_of_imp _ _ db.versions (himp v2)]
  · simp only [rollbackRoute, hscope, rollback_to_version, rollbackTargetVersion,
      isAdminUser, scrub_versions]
    rw [filter_filter_of_imp _ _ db.versions
      (fun a ha => band_true_right (band_true_left ha))]
    cases htv : (db.versions.filter
        (fun r => r.service_name == svc && r.user_id == caller.id && r.id == vid)).head? with
    | none => rfl
    | some tv =>
        have htvu : tv.user_id = caller.id := by
          have hm := head_mem_of_head? htv
          rw [List.mem_filter] at hm
          have h2 := band_true_right (band_true_left hm.2)
          rwa [beq_iff_eq] at h2
        have hfa : findActiveConfig (db.scrub caller.id) svc tv.user_id =
            findActiveConfig db svc tv.user_id := by
          show (((db.configs.filter (fun r => r.user_id == caller.id)).filter
            (fun r => r.name == svc && r.user_id == tv.user_id))).head? =
            findActiveConfig db svc tv.user_id
          rw [filter_filter_of_imp _ _ db.configs
            (fun a ha => by
              have h2 := band_true_right ha
              rwa [htvu] at h2)]
          rfl
        simp only [ite_self, except_bind_ok, hfa]
        cases hcur : findActiveConfig db svc tv.user_id with
        | none => rfl
        | some cur => simp [Except.map]

/-- Witness for C5: caller 7 probing a row that exists only under owner 9
gets exactly the answers of the stripped database, in particular the same
404 as true absence. -/
theorem user_scope_noninterference_witness :
    getConfigRoute ⟨[⟨1, "svc", JVal.null, 9⟩], [⟨1, "svc", 1, JVal.null, 9⟩], 2, 2⟩
      ⟨7, "user"⟩ "svc" none =
      getConfigRoute ((⟨[⟨1, "svc", JVal.null, 9⟩], [⟨1, "svc", 1, JVal.null, 9⟩], 2, 2⟩ :
        DB).scrub 7) ⟨7, "user"⟩ "svc" none ∧
    (rollbackRoute ⟨[⟨1, "svc", JVal.null, 9⟩], [⟨1, "svc", 1, JVal.null, 9⟩], 2, 2⟩
      ⟨7, "user"⟩ "svc" 1 none).map Prod.fst =
      (rollbackRoute ((⟨[⟨1, "svc", JVal.null, 9⟩], [⟨1, "svc", 1, JVal.null, 9⟩], 2, 2⟩ :
        DB).scrub 7) ⟨7, "user"⟩ "svc" 1 none).map Prod.fst ∧
    getConfigRoute ⟨[⟨1, "svc", JVal.null, 9⟩], [⟨1, "svc", 1, JVal.null, 9⟩], 2, 2⟩
      ⟨7, "user"⟩ "svc" none = Except.error (Err.http 404 "Service config not found") := by
  obtain ⟨h1, _, _, _, h5⟩ := user_scope_noninterference
    ⟨[⟨1, "svc", JVal.null, 9⟩], [⟨1, "svc", 1, JVal.null, 9⟩], 2, 2⟩ ⟨7, "user"⟩
    (by decide) "svc" none 1 1
  exact ⟨h1, h5, by rfl⟩

/-! ## C9: the Diff Engine on documents equal up to unordered-collection order -/

/-- Fields related by equal key and order-insensitively equal value. -/
def FieldEquiv (p q : String × JVal) : Prop := p.1 = q.1 ∧ EquivUnord p.2 q.2

theorem jval_sizeOf_pos (a : JVal) : 0 < sizeOf a := by
  cases a <;> simp_arith

theorem sizeOf_mem_arr {x : JVal} {xs : List JVal} (h : x ∈ xs) :
    sizeOf x < sizeOf (JVal.arr xs) := by
  have := List.sizeOf_lt_of_mem h
  simp only [JVal.arr.sizeOf_spec]
  omega

theorem sizeOf_mem_obj {p : String × JVal} {fs : List (String × JVal)} (h : p ∈ fs) :
    sizeOf p.2 < sizeOf (JVal.obj fs) := by
  have h1 := List.sizeOf_lt_of_mem h
  obtain ⟨k, v⟩ := p
  simp only [JVal.obj.sizeOf_spec]
  simp only [Prod.mk.sizeOf_spec] at h1
  omega

theorem pointwise_to_rel : ∀ {xs zs : List JVal}, PointwiseEquiv xs zs →
    Multiset.Rel EquivUnord ↑xs ↑zs := by
  intro xs
  induction xs with
  | nil =>
      intro zs h
      cases h
      exact Multiset.Rel.zero
  | cons x xs ih =>
      intro zs h
      cases h with
      | cons hxy hrest =>
          rw [← Multiset.cons_coe, ← Multiset.cons_coe]
          exact Multiset.Rel.cons hxy (ih hrest)

theorem pointwiseF_to_rel : ∀ {fs hs : List (String × JVal)}, PointwiseFieldEquiv fs hs →
    Multiset.Rel FieldEquiv ↑fs ↑hs := by
  intro fs
  induction fs with
  | nil =>
      intro hs h
      cases h
      exact Multiset.Rel.zero
  | cons f fs ih =>
      intro hs h
      cases h with
      | cons hvw hrest =>
          rw [← Multiset.cons_coe, ← Multiset.cons_coe]
          exact Multiset.Rel.cons ⟨rfl, hvw⟩ (ih hrest)

theorem rel_to_pointwise : ∀ (xs : List JVal) (s : Multiset JVal),
    Multiset.Rel EquivUnord ↑xs s → ∃ zs : List JVal, PointwiseEquiv xs zs ∧ (↑zs : Multiset JVal) = s := by
  intro xs
  induction xs with
  | nil =>
      intro s h
      have hs : s = 0 := by
        rw [show ((↑([] : List JVal) : Multiset JVal)) = 0 from rfl] at h
        exact Multiset.rel_zero_left.mp h
      exact ⟨[], PointwiseEquiv.nil, by rw [hs]; rfl⟩
  | cons x xs ih =>
      intro s h
      rw [← Multiset.cons_coe] at h
      obtain ⟨b, bs, hxb, hrel, rfl⟩ := Multiset.rel_cons_left.mp h
      obtain ⟨zs, hpw, hzs⟩ := ih bs hrel
      exact ⟨b :: zs, PointwiseEquiv.cons hxb hpw, by rw [← Multiset.cons_coe, hzs]⟩

theorem rel_to_pointwiseF : ∀ (fs : List (String × JVal)) (s : Multiset (String × JVal)),
    Multiset.Rel FieldEquiv ↑fs s →
    ∃ hs : List (String × JVal), PointwiseFieldEquiv fs hs ∧ (↑hs : Multiset (String × JVal)) = s := by
  intro fs
  induction fs with
  | nil =>
      intro s h
      have hs : s = 0 := by
        rw [show ((↑([] : List (String × JVal)) : Multiset (String × JVal))) = 0 from rfl] at h
        exact Multiset.rel_zero_left.mp h
      exact ⟨[], PointwiseFieldEquiv.nil, by rw [hs]; rfl⟩
  | cons f fs ih =>
      intro s h
      rw [← Multiset.cons_coe] at h
      obtain ⟨b, bs, hfb, hrel, rfl⟩ := Multiset.rel_cons_left.mp h
      obtain ⟨hs, hpw, hhs⟩ := ih bs hrel
      obtain ⟨k, v⟩ := f
      obtain ⟨k2, w⟩ := b
      obtain ⟨hk, hvw⟩ := hfb
      cases hk
      exact ⟨(k, w) :: hs, PointwiseFieldEquiv.cons hvw hpw, by rw [← Multiset.cons_coe, hhs]⟩

theorem equiv_arr_iff (xs ys : List JVal) :
    EquivUnord (.arr xs) (.arr ys) ↔ Multiset.Rel EquivUnord ↑xs ↑ys := by
  constructor
  · intro h
    cases h with
    | arr hpw hperm =>
        have hr := pointwise_to_rel hpw
        rwa [Multiset.coe_eq_coe.mpr hperm] at hr
  · intro h
    obtain ⟨zs, hpw, hzs⟩ := rel_to_pointwise xs (↑ys) h
    exact EquivUnord.arr hpw (Multiset.coe_eq_coe.mp hzs)

theorem equiv_obj_iff (fs gs : List (String × JVal)) :
    EquivUnord (.obj fs) (.obj gs) ↔ Multiset.Rel FieldEquiv ↑fs ↑gs := by
  constructor
  · intro h
    cases h with
    | obj hpw hperm =>
        have hr := pointwiseF_to_rel hpw
        rwa [Multiset.coe_eq_coe.mpr hperm] at hr
  · intro h
    obtain ⟨hs, hpw, hhs⟩ := rel_to_pointwiseF fs (↑gs) h
    exact EquivUnord.obj hpw (Multiset.coe_eq_coe.mp hhs)

theorem removeElem_spec : ∀ (x : JVal) (ys ys' : List JVal), removeElem x ys = some ys' →
    ∃ y, jequiv x y = true ∧ (↑ys : Multiset JVal) = y ::ₘ (↑ys' : Multiset JVal) := by
  intro x ys
  induction ys with
  | nil => intro ys' h; simp [removeElem] at h
  | cons z zs ih =>
      intro ys' h
      by_cases hz : jequiv x z = true
      · simp only [removeElem, hz, if_true] at h
        cases h
        exact ⟨z, hz, (Multiset.cons_coe z zs).symm⟩
      · simp only [removeElem, hz, if_false, Bool.false_eq_true] at h
        rw [Option.map_eq_some'] at h
        obtain ⟨ws, hws, rfl⟩ := h
        obtain ⟨y, hy, hsplit⟩ := ih ws hws
        refine ⟨y, hy, ?_⟩
        rw [← Multiset.cons_coe, hsplit, ← Multiset.cons_coe, Multiset.cons_swap]

theorem matchElems_sound : ∀ (xs ys : List JVal),
    (∀ x ∈ xs, ∀ y, jequiv x y = true → EquivUnord x y) →
    matchElems xs ys = true → Multiset.Rel EquivUnord ↑xs ↑ys := by
  intro xs
  induction xs with
  | nil =>
      intro ys _ h
      simp only [matchElems, List.isEmpty_iff] at h
      subst h
      exact Multiset.Rel.zero
  | cons x xs ih =>
      intro ys hyp h
      cases hrem : removeElem x ys with
      | none => simp [matchElems, hrem] at h
      | some ys0 =>
          simp only [matchElems, hrem] at h
          obtain ⟨y, hj, hsplit⟩ := removeElem_spec x ys ys0 hrem
          rw [← Multiset.cons_coe, hsplit]
          exact Multiset.Rel.cons (hyp x (List.mem_cons_self x xs) y hj)
            (ih ys0 (fun a ha => hyp a (List.mem_cons_of_mem x ha)) h)

theorem removeField_spec : ∀ (f : String × JVal) (gs gs' : List (String × JVal)),
    removeField f gs = some gs' →
    ∃ g, (f.1 == g.1 && jequiv f.2 g.2) = true ∧
      (↑gs : Multiset (String × JVal)) = g ::ₘ (↑gs' : Multiset (String × JVal)) := by
  intro f gs
  obtain ⟨k, v⟩ := f
  induction gs with
  | nil => intro gs' h; simp [removeField] at h
  | cons g gs ih =>
      intro gs' h
      by_cases hg : (k == g.1 && jequiv v g.2) = true
      · simp only [removeField, hg, if_true] at h
        cases h
        exact ⟨g, hg, (Multiset.cons_coe g gs).symm⟩
      · simp only [removeField, hg, if_false, Bool.false_eq_true] at h
        rw [Option.map_eq_some'] at h
        obtain ⟨ws, hws, rfl⟩ := h
        obtain ⟨y, hy, hsplit⟩ := ih ws hws
        refine ⟨y, hy, ?_⟩
        rw [← Multiset.cons_coe, hsplit, ← Multiset.cons_coe, Multiset.cons_swap]

theorem matchFields_sound : ∀ (fs gs : List (String × JVal)),
    (∀ f ∈ fs, ∀ g, (f.1 == g.1 && jequiv f.2 g.2) = true → FieldEquiv f g) →
    matchFields fs gs = true → Multiset.Rel FieldEquiv ↑fs ↑gs := by
  intro fs
  induction fs with
  | nil =>
      intro gs _ h
      simp only [matchFields, List.isEmpty_iff] at h
      subst h
      exact Multiset.Rel.zero
  | cons f fs ih =>
      intro gs hyp h
      cases hrem : removeField f gs with
      | none => simp [matchFields, hrem] at h
      | some gs0 =>
          simp only [matchFields, hrem] at h
          obtain ⟨g, hj, hsplit⟩ := removeField_spec f gs gs0 hrem
          rw [← Multiset.cons_coe, hsplit]
          exact Multiset.Rel.cons (hyp f (List.mem_cons_self f fs) g hj)
            (ih gs0 (fun a ha => hyp a (List.mem_cons_of_mem f ha)) h)

theorem jequiv_sound_bounded : ∀ n : Nat, ∀ a b : JVal, sizeOf a ≤ n →
    jequiv a b = true → EquivUnord a b := by
  intro n
  induction n with
  | zero =>
      intro a b ha _
      have := jval_sizeOf_pos a
      omega
  | succ m ih =>
      intro a b ha h
      cases a with
      | null =>
          cases b <;> simp [jequiv] at h
          exact EquivUnord.null
      | bool x =>
          cases b <;> simp [jequiv] at h
          subst h
          exact EquivUnord.bool x
      | num x =>
          cases b <;> simp [jequiv] at h
          subst h
          exact EquivUnord.num x
      | str x =>
          cases b <;> simp [jequiv] at h
          subst h
          exact EquivUnord.str x
      | arr xs =>
          cases b <;> simp only [jequiv, Bool.false_eq_true] at h
          case arr ys =>
            refine (equiv_arr_iff xs ys).mpr (matchElems_sound xs ys ?_ h)
            intro x hx y hj
            have hs := sizeOf_mem_arr hx
            exact ih x y (by omega) hj
      | obj fs =>
          cases b <;> simp only [jequiv, Bool.false_eq_true] at h
          case obj gs =>
            refine (equiv_obj_iff fs gs).mpr (matchFields_sound fs gs ?_ h)
            intro f hf g hj
            have hs := sizeOf_mem_obj hf
            refine ⟨?_, ?_⟩
            · have h1 := band_true_left hj
              rwa [beq_iff_eq] at h1
            · exact ih f.2 g.2 (by omega) (band_true_right hj)

theorem jequiv_sound (a b : JVal) (h : jequiv a b = true) : EquivUnord a b :=
  jequiv_sound_bounded (sizeOf a) a b (Nat.le_refl _) h

theorem equiv_symm_bounded : ∀ n : Nat, ∀ a b : JVal, sizeOf a ≤ n →
    EquivUnord a b → EquivUnord b a := by
  intro n
  induction n with
  | zero =>
      intro a b ha _
      have := jval_sizeOf_pos a
      omega
  | succ m ih =>
      intro a b ha h
      cases h with
      | null => exact EquivUnord.null
      | bool x => exact EquivUnord.bool x
      | num x => exact EquivUnord.num x
      | str x => exact EquivUnord.str x
      | arr hpw hperm =>
          rename_i xs zs ys
          have hr := (equiv_arr_iff xs ys).mp (EquivUnord.arr hpw hperm)
          refine (equiv_arr_iff ys xs).mpr ?_
          have hflip : Multiset.Rel (flip EquivUnord) ↑ys ↑xs := Multiset.rel_flip.mpr hr
          refine hflip.mono ?_
          intro p _ q hq hpq
          rw [Multiset.mem_coe] at hq
          have hs := sizeOf_mem_arr hq
          exact ih q p (by omega) hpq
      | obj hpw hperm =>
          rename_i fs hs2 gs
          have hr := (equiv_obj_iff fs gs).mp (EquivUnord.obj hpw hperm)
          refine (equiv_obj_iff gs fs).mpr ?_
          have hflip : Multiset.Rel (flip FieldEquiv) ↑gs ↑fs := Multiset.rel_flip.mpr hr
          refine hflip.mono ?_
          intro p _ q hq hpq
          rw [Multiset.mem_coe] at hq
          have hsz := sizeOf_mem_obj hq
          exact ⟨hpq.1.symm, ih q.2 p.2 (by omega) hpq.2⟩

theorem equiv_symm {a b : JVal} (h : EquivUnord a b) : EquivUnord b a :=
  equiv_symm_bounded (sizeOf a) a b (Nat.le_refl _) h

theorem rel_trans_restricted {α : Type} {R : α → α → Prop} :
    ∀ (t s u : Multiset α), (∀ p ∈ s, ∀ q w, R p q → R q w → R p w) →
      Multiset.Rel R s t → Multiset.Rel R t u → Multiset.Rel R s u := by
  intro t
  induction t using Multiset.induction_on with
  | empty =>
      intro s u _ r1 r2
      rw [Multiset.rel_zero_right.mp r1, Multiset.rel_zero_left.mp r2]
      exact Multiset.Rel.zero
  | cons x t ihx =>
      intro s u hi r1 r2
      obtain ⟨a, as, ha1, ha2, rfl⟩ := Multiset.rel_cons_right.mp r1
      obtain ⟨b, bs, hb1, hb2, rfl⟩ := Multiset.rel_cons_left.mp r2
      refine Multiset.Rel.cons (hi a (Multiset.mem_cons_self a as) x b ha1 hb1) ?_
      exact ihx as bs (fun p hp q w h1 h2 => hi p (Multiset.mem_cons_of_mem hp) q w h1 h2)
        ha2 hb2

theorem equiv_trans_bounded : ∀ n : Nat, ∀ a b c : JVal, sizeOf a ≤ n →
    EquivUnord a b → EquivUnord b c → EquivUnord a c := by
  intro n
  induction n with
  | zero =>
      intro a b c ha _ _
      have := jval_sizeOf_pos a
      omega
  | succ m ih =>
      intro a b c ha h1 h2
      cases h1 with
      | null => exact h2
      | bool x => exact h2
      | num x => exact h2
      | str x => exact h2
      | arr hpw hperm =>
          rename_i xs zs ys
          cases h2 with
          | arr hpw2 hperm2 =>
              rename_i zs2 ws
              have r1 := (equiv_arr_iff xs ys).mp (EquivUnord.arr hpw hperm)
              have r2 := (equiv_arr_iff ys ws).mp (EquivUnord.arr hpw2 hperm2)
              refine (equiv_arr_iff xs ws).mpr ?_
              refine rel_trans_restricted (↑ys : Multiset JVal) (↑xs : Multiset JVal) (↑ws : Multiset JVal) ?_ r1 r2
              intro p hp q w hpq hqw
              rw [Multiset.mem_coe] at hp
              have hs := sizeOf_mem_arr hp
              exact ih p q w (by omega) hpq hqw
      | obj hpw hperm =>
          rename_i fs hs2 gs
          cases h2 with
          | obj hpw2 hperm2 =>
              rename_i hs3 ws
              have r1 := (equiv_obj_iff fs gs).mp (EquivUnord.obj hpw hperm)
              have r2 := (equiv_obj_iff gs ws).mp (EquivUnord.obj hpw2 hperm2)
              refine (equiv_obj_iff fs ws).mpr ?_
              refine rel_trans_restricted (↑gs : Multiset (String × JVal)) (↑fs : Multiset (String × JVal)) (↑ws : Multiset (String × JVal)) ?_ r1 r2
              intro p hp q w hpq hqw
              rw [Multiset.mem_coe] at hp
              have hsz := sizeOf_mem_obj hp
              exact ⟨hpq.1.trans hqw.1, ih p.2 q.2 w.2 (by omega) hpq.2 hqw.2⟩

theorem equiv_trans {a b c : JVal} (h1 : EquivUnord a b) (h2 : EquivUnord b c) :
    EquivUnord a c :=
  equiv_trans_bounded (sizeOf a) a b c (Nat.le_refl _) h1 h2

theorem fieldEquiv_symm {p q : String × JVal} (h : FieldEquiv p q) : FieldEquiv q p :=
  ⟨h.1.symm, equiv_symm h.2⟩

theorem fieldEquiv_trans {p q w : String × JVal} (h1 : FieldEquiv p q)
    (h2 : FieldEquiv q w) : FieldEquiv p w :=
  ⟨h1.1.trans h2.1, equiv_trans h1.2 h2.2⟩

theorem rel_exchange {α : Type} {R : α → α → Prop}
    (hsymm : ∀ a b, R a b → R b a) (htrans : ∀ a b c, R a b → R b c → R a c)
    {x b y0 : α} {s bs t : Multiset α}
    (hxb : R x b) (hxy : R x y0) (hrel : Multiset.Rel R s bs)
    (heq : b ::ₘ bs = y0 ::ₘ t) : Multiset.Rel R s t := by
  rcases Multiset.cons_eq_cons.mp heq with ⟨hb, hbs⟩ | ⟨_, cs, hbs, ht⟩
  · rwa [← hbs]
  · rw [hbs] at hrel
    obtain ⟨a, as, ha1, ha2, rfl⟩ := Multiset.rel_cons_right.mp hrel
    have hab : R a b := htrans a x b (htrans a y0 x ha1 (hsymm x y0 hxy)) hxb
    rw [ht]
    exact Multiset.Rel.cons hab ha2

theorem removeElem_isSome : ∀ (x : JVal) (ys : List JVal) (y : JVal), y ∈ ys →
    jequiv x y = true → ∃ ys', removeElem x ys = some ys' := by
  intro x ys
  induction ys with
  | nil => intro y hy _; cases hy
  | cons z zs ih =>
      intro y hy hj
      by_cases hz : jequiv x z = true
      · exact ⟨zs, by simp [removeElem, hz]⟩
      · rcases List.mem_cons.mp hy with rfl | hmem
        · exact absurd hj hz
        · obtain ⟨ws, hws⟩ := ih y hmem hj
          exact ⟨z :: ws, by simp [removeElem, hz, hws]⟩

theorem removeField_isSome : ∀ (f : String × JVal) (gs : List (String × JVal))
    (g : String × JVal), g ∈ gs → (f.1 == g.1 && jequiv f.2 g.2) = true →
    ∃ gs', removeField f gs = some gs' := by
  intro f gs
  obtain ⟨k, v⟩ := f
  induction gs with
  | nil => intro g hg _; cases hg
  | cons z zs ih =>
      intro g hg hj
      by_cases hz : (k == z.1 && jequiv v z.2) = true
      · exact ⟨zs, by simp [removeField, hz]⟩
      · rcases List.mem_cons.mp hg with rfl | hmem
        · exact absurd hj hz
        · obtain ⟨ws, hws⟩ := ih g hmem hj
          exact ⟨z :: ws, by simp [removeField, hz, hws]⟩

theorem matchElems_complete : ∀ (xs ys : List JVal),
    (∀ x ∈ xs, ∀ y, EquivUnord x y → jequiv x y = true) →
    Multiset.Rel EquivUnord ↑xs ↑ys → matchElems xs ys = true := by
  intro xs
  induction xs with
  | nil =>
      intro ys _ hrel
      have h0 : (↑ys : Multiset JVal) = 0 := by
        rw [show ((↑([] : List JVal) : Multiset JVal)) = 0 from rfl] at hrel
        exact Multiset.rel_zero_left.mp hrel
      rw [Multiset.coe_eq_zero] at h0
      subst h0
      simp [matchElems]
  | cons x xs ih =>
      intro ys hcomp hrel
      rw [← Multiset.cons_coe] at hrel
      obtain ⟨b, bs, hxb, hxs, hys⟩ := Multiset.rel_cons_left.mp hrel
      have hbmem : b ∈ ys := by
        have hb : b ∈ (↑ys : Multiset JVal) := by
          rw [hys]
          exact Multiset.mem_cons_self b bs
        rwa [Multiset.mem_coe] at hb
      have hjxb : jequiv x b = true := hcomp x (List.mem_cons_self x xs) b hxb
      obtain ⟨ys0, hrem⟩ := removeElem_isSome x ys b hbmem hjxb
      obtain ⟨y0, hjxy0, hysplit⟩ := removeElem_spec x ys ys0 hrem
      have hxy0 : EquivUnord x y0 := jequiv_sound x y0 hjxy0
      have heq2 : b ::ₘ bs = y0 ::ₘ (↑ys0 : Multiset JVal) := by
        rw [← hys]
        exact hysplit
      have hrel0 : Multiset.Rel EquivUnord ↑xs ↑ys0 :=
        @rel_exchange JVal EquivUnord (fun _ _ hpq => equiv_symm hpq)
          (fun _ _ _ h1 h2 => equiv_trans h1 h2) x b y0 (↑xs) bs (↑ys0) hxb hxy0 hxs heq2
      have hres := ih ys0 (fun a ha y hy => hcomp a (List.mem_cons_of_mem x ha) y hy) hrel0
      simp only [matchElems, hrem]
      exact hres

theorem matchFields_complete : ∀ (fs gs : List (String × JVal)),
    (∀ f ∈ fs, ∀ g, FieldEquiv f g → (f.1 == g.1 && jequiv f.2 g.2) = true) →
    Multiset.Rel FieldEquiv ↑fs ↑gs → matchFields fs gs = true := by
  intro fs
  induction fs with
  | nil =>
      intro gs _ hrel
      have h0 : (↑gs : Multiset (String × JVal)) = 0 := by
        rw [show ((↑([] : List (String × JVal)) : Multiset (String × JVal))) = 0 from rfl]
          at hrel
        exact Multiset.rel_zero_left.mp hrel
      rw [Multiset.coe_eq_zero] at h0
      subst h0
      simp [matchFields]
  | cons f fs ih =>
      intro gs hcomp hrel
      rw [← Multiset.cons_coe] at hrel
      obtain ⟨b, bs, hfb, hfs, hgs⟩ := Multiset.rel_cons_left.mp hrel
      have hbmem : b ∈ gs := by
        have hb : b ∈ (↑gs : Multiset (String × JVal)) := by
          rw [hgs]
          exact Multiset.mem_cons_self b bs
        rwa [Multiset.mem_coe] at hb
      have hjfb : (f.1 == b.1 && jequiv f.2 b.2) = true :=
        hcomp f (List.mem_cons_self f fs) b hfb
      obtain ⟨gs0, hrem⟩ := removeField_isSome f gs b hbmem hjfb
      obtain ⟨g0, hjfg0, hgsplit⟩ := removeField_spec f gs gs0 hrem
      have hfg0 : FieldEquiv f g0 := by
        refine ⟨?_, jequiv_sound f.2 g0.2 (band_true_right hjfg0)⟩
        have h1 := band_true_left hjfg0
        rwa [beq_iff_eq] at h1
      have heq2 : b ::ₘ bs = g0 ::ₘ (↑gs0 : Multiset (String × JVal)) := by
        rw [← hgs]
        exact hgsplit
      have hrel0 : Multiset.Rel FieldEquiv ↑fs ↑gs0 :=
        @rel_exchange (String × JVal) FieldEquiv (fun _ _ hpq => fieldEquiv_symm hpq)
          (fun _ _ _ h1 h2 => fieldEquiv_trans h1 h2) f b g0 (↑fs) bs (↑gs0) hfb hfg0 hfs heq2
      have hres := ih gs0 (fun a ha g hg => hcomp a (List.mem_cons_of_mem f ha) g hg) hrel0
      simp only [matchFields, hrem]
      exact hres

theorem jequiv_complete_bounded : ∀ n : Nat, ∀ a b : JVal, sizeOf a ≤ n →
    EquivUnord a b → jequiv a b = true := by
  intro n
  induction n with
  | zero =>
      intro a b ha _
      have := jval_sizeOf_pos a
      omega
  | succ m ih =>
      intro a b ha h
      cases h with
      | null => simp [jequiv]
      | bool x => simp [jequiv]
      | num x => simp [jequiv]
      | str x => simp [jequiv]
      | arr hpw hperm =>
          rename_i xs zs ys
          have hr := (equiv_arr_iff xs ys).mp (EquivUnord.arr hpw hperm)
          have hres : matchElems xs ys = true := by
            refine matchElems_complete xs ys ?_ hr
            intro x hx y hy
            have hs := sizeOf_mem_arr hx
            exact ih x y (by omega) hy
          simp [jequiv, hres]
      | obj hpw hperm =>
          rename_i fs hs2 gs
          have hr := (equiv_obj_iff fs gs).mp (EquivUnord.obj hpw hperm)
          have hres : matchFields fs gs = true := by
            refine matchFields_complete fs gs ?_ hr
            intro f hf g hg
            have hsz := sizeOf_mem_obj hf
            rw [Bool.and_eq_true, beq_iff_eq]
            exact ⟨hg.1, ih f.2 g.2 (by omega) hg.2⟩
          simp [jequiv, hres]

theorem jequiv_complete (a b : JVal) (h : EquivUnord a b) : jequiv a b = true :=
  jequiv_complete_bounded (sizeOf a) a b (Nat.le_refl _) h

theorem matchElems_self : ∀ xs : List JVal, (∀ x ∈ xs, jequiv x x = true) →
    matchElems xs xs = true := by
  intro xs
  induction xs with
  | nil => simp [matchElems]
  | cons x xs ih =>
      intro h
      have hx : jequiv x x = true := h x (List.mem_cons_self x xs)
      have hrem : removeElem x (x :: xs) = some xs := by simp [removeElem, hx]
      simp only [matchElems, hrem]
      exact ih (fun a ha => h a (List.mem_cons_of_mem x ha))

theorem matchFields_self : ∀ fs : List (String × JVal), (∀ f ∈ fs, jequiv f.2 f.2 = true) →
    matchFields fs fs = true := by
  intro fs
  induction fs with
  | nil => simp [matchFields]
  | cons f fs ih =>
      intro h
      obtain ⟨k, v⟩ := f
      have hv : jequiv v v = true := h (k, v) (List.mem_cons_self (k, v) fs)
      have hrem : removeField (k, v) ((k, v) :: fs) = some fs := by simp [removeField, hv]
      simp only [matchFields, hrem]
      exact ih (fun a ha => h a (List.mem_cons_of_mem (k, v) ha))

theorem jequiv_refl_bounded : ∀ n : Nat, ∀ a : JVal, sizeOf a ≤ n → jequiv a a = true := by
  intro n
  induction n with
  | zero =>
      intro a ha
      have := jval_sizeOf_pos a
      omega
  | succ m ih =>
      intro a ha
      cases a with
      | null => simp [jequiv]
      | bool x => simp [jequiv]
      | num x => simp [jequiv]
      | str x => simp [jequiv]
      | arr xs =>
          have hres : matchElems xs xs = true := by
            refine matchElems_self xs ?_
            intro x hx
            have hs := sizeOf_mem_arr hx
            exact ih x (by omega)
          simp [jequiv, hres]
      | obj fs =>
          have hres : matchFields fs fs = true := by
            refine matchFields_self fs ?_
            intro f hf
            have hs := sizeOf_mem_obj hf
            exact ih f.2 (by omega)
          simp [jequiv, hres]

theorem jequiv_refl (a : JVal) : jequiv a a = true :=
  jequiv_refl_bounded (sizeOf a) a (Nat.le_refl _)

/-- C9: for every pair of documents equal up to the ordering of elements of
unordered collections the Diff Engine returns an empty report; diff of a
document against itself is empty; and the repository's diff of a version
against itself yields a report whose diff is empty.  The report is a pure
function of the two payloads by construction of deepDiff. -/
theorem diff_equiv_empty :
    (∀ a b : JVal, EquivUnord a b → deepDiff a b = []) ∧
    (∀ v : JVal, deepDiff v v = []) ∧
    (∀ (db : DB) (svc : String) (i : Nat) (uid : Option Nat) (rep : DiffReport),
      diff_versions db svc i i uid = Except.ok rep → rep.diff = []) := by
  refine ⟨?_, ?_, ?_⟩
  · intro a b h
    simp [deepDiff, jequiv_complete a b h]
  · intro v
    simp [deepDiff, jequiv_refl v]
  · intro db svc i uid rep h
    simp only [diff_versions] at h
    cases hv : (db.versions.filter fun r =>
        r.service_name == svc && uid == some r.user_id && r.id == i).head? with
    | none =>
        rw [hv] at h
        exact Except.noConfusion h
    | some a =>
        rw [hv] at h
        simp only [Except.ok.injEq] at h
        rw [← h]
        simp [deepDiff, jequiv_refl]

/-- Witness for C9: the sequences [1,2,3] and [3,2,1] hold equal multisets
of elements and their diff report is empty. -/
theorem diff_equiv_empty_witness :
    EquivUnord (JVal.arr [JVal.num 1, JVal.num 2, JVal.num 3])
      (JVal.arr [JVal.num 3, JVal.num 2, JVal.num 1]) ∧
    deepDiff (JVal.arr [JVal.num 1, JVal.num 2, JVal.num 3])
      (JVal.arr [JVal.num 3, JVal.num 2, JVal.num 1]) = [] := by
  have hpw : PointwiseEquiv [JVal.num 1, JVal.num 2, JVal.num 3]
      [JVal.num 1, JVal.num 2, JVal.num 3] :=
    PointwiseEquiv.cons (EquivUnord.num 1)
      (PointwiseEquiv.cons (EquivUnord.num 2)
        (PointwiseEquiv.cons (EquivUnord.num 3) PointwiseEquiv.nil))
  have hperm : [JVal.num 1, JVal.num 2, JVal.num 3].Perm
      [JVal.num 3, JVal.num 2, JVal.num 1] := by
    have s1 : [JVal.num 1, JVal.num 2, JVal.num 3].Perm
        [JVal.num 2, JVal.num 1, JVal.num 3] :=
      List.Perm.swap (JVal.num 2) (JVal.num 1) [JVal.num 3]
    have s2 : [JVal.num 2, JVal.num 1, JVal.num 3].Perm
        [JVal.num 2, JVal.num 3, JVal.num 1] :=
      List.Perm.cons (JVal.num 2) (List.Perm.swap (JVal.num 3) (JVal.num 1) [])
    have s3 : [JVal.num 2, JVal.num 3, JVal.num 1].Perm
        [JVal.num 3, JVal.num 2, JVal.num 1] :=
      List.Perm.swap (JVal.num 3) (JVal.num 2) [JVal.num 1]
    exact (s1.trans s2).trans s3
  have h := EquivUnord.arr hpw hperm
  exact ⟨h, diff_equiv_empty.1 _ _ h⟩
